import Mathlib

/-
  Shallow embedding of `src/cow_library.py` (class COWFS) and the version-walk
  helper `obtener_contenido_version` of `src/main.py`.

  Modelling conventions:
  * bytes are `List Nat`; block ids are `Nat`, allocated from a fresh-id
    counter `next_id` (the source uses `uuid.uuid4()`; the counter models the
    same "globally unique fresh identifier" behaviour);
  * the block directory (`<root>/data/<id>.block`) is `store : Nat → Option (List Nat)`;
  * the metadata directory (`<root>/metadata/<name>.json`) is
    `meta : String → Option Metadata`; the in-memory `open_files` table is
    `open_files : String → Option FileInfo`.  In Python the open-file entry
    holds the *same* dict object that is dumped to JSON, so every mutation of
    the metadata is applied to both maps here;
  * `creation_time` / `timestamp` fields (wall-clock strings) are elided: no
    operation ever reads them;
  * the base `.txt` file of a created file is tracked by existence only
    (`txt : String → Bool`): `create` tests `os.path.exists(txt_path)` and
    creates/removes it, and the only write to it (`write`'s trailing append)
    appends the already-consumed residue of `data`, which is always empty, so
    its content never needs to be modelled.  The external-file branch of
    `open` (registering an OS file as version 0) is likewise outside every
    claim and is not modelled; an internally opened session has
    `external_file = false`, matching the absent dictionary key;
  * a Python `IndexError` / missing-block `FileNotFoundError` on a
    metadata-referenced index or block would crash the source; those accesses
    are expressed with `.getD` defaults and commented where they occur (they
    are unreachable for states produced through the API).
-/

namespace CowLib

/-- Version record, as serialized in the metadata JSON:
`{version, timestamp, blocks, start, end, size}` (timestamp elided). -/
structure Version where
  version : Nat
  blocks : List Nat
  start : Nat
  end_ : Nat
  size : Nat
  deriving DecidableEq

/-- Per-file metadata record, as serialized in `<name>.json`:
`{filename, creation_time, versions, current_version, size, blocks}`
(creation_time elided).  `current_version` is `-1` when there is no version. -/
structure Metadata where
  filename : String
  versions : List Version
  current_version : Int
  size : Nat
  blocks : List Nat
  deriving DecidableEq

/-- An entry of the `open_files` table: the (shared) metadata record, the
session cursor `position`, and whether the session is externally backed. -/
structure FileInfo where
  metadata : Metadata
  position : Nat
  external_file : Bool
  deriving DecidableEq

/-- Whole-system state: block store, fresh-id counter, metadata store,
open-files table, and existence of the per-file base `.txt` files. -/
structure COWFS where
  store : Nat → Option (List Nat)
  next_id : Nat
  meta : String → Option Metadata
  open_files : String → Option FileInfo
  txt : String → Bool

/-- `self.block_size = 4 * 1024`. -/
def block_size : Nat := 4 * 1024

/-- The placeholder current version `{"blocks": [], "size": 0}` used by
`write` when `current_version < 0`; also used as the `getD` default for
version-list accesses that cannot fail on API-produced states. -/
def emptyVersion : Version := ⟨0, [], 0, 0, 0⟩

/-- `current_version = metadata["versions"][idx]` if `idx >= 0` else the
empty placeholder (`write`, lines 315–319).  An out-of-range non-negative
index would raise `IndexError` in the source; it is `getD`-defaulted here. -/
def currentVersionOf (md : Metadata) : Version :=
  if md.current_version < 0 then emptyVersion
  else (md.versions.get? md.current_version.toNat).getD emptyVersion

/-- The fresh metadata record written by `create`:
`{filename, creation_time, versions: [], current_version: -1, size: 0, blocks: []}`. -/
def freshMeta (filename : String) : Metadata :=
  ⟨filename, [], -1, 0, []⟩

/-- Python slice `block_data[block_start:block_end]` where `block_start =
max(0, start - pos)` (a truncated Nat subtraction) and `block_end =
min(len(block_data), end - pos)` (an `Int`, possibly negative; Python
interprets a negative end index as `len + end`, clamped at 0). -/
def sliceBlock (block : List Nat) (start end_ pos : Nat) : List Nat :=
  let bs : Nat := start - pos
  let be : Int := min (block.length : Int) ((end_ : Int) - (pos : Int))
  let eff : Nat := if be < 0 then ((block.length : Int) + be).toNat else be.toNat
  (block.take eff).drop bs

/-- The block-walk loop shared by `read` (cow_library.py, lines 83–99) and
`obtener_contenido_version` (main.py, lines 31–46): walk the block ids in
order accumulating byte offsets, slice each block against the
`[start, end)` window, and concatenate; a missing block aborts the whole
walk (`none`; the source prints a warning and returns `b""` / `None`). -/
def readBlocks (store : Nat → Option (List Nat)) :
    List Nat → Nat → Nat → Nat → Option (List Nat)
  | [], _, _, _ => some []
  | b :: rest, start, end_, pos =>
    match store b with
    | none => none
    | some data =>
      match readBlocks store rest start end_ (pos + data.length) with
      | none => none
      | some tail => some (sliceBlock data start end_ pos ++ tail)

/-- `read(filename)`: full content of the current version of an open file;
`b""` when the file is not open, has no version, or a block is missing.
Note the source never consults or advances the session cursor here. -/
def read (s : COWFS) (filename : String) : List Nat :=
  match s.open_files filename with
  | none => []
  | some fi =>
    let md := fi.metadata
    if md.current_version < 0 then []
    else
      let v := (md.versions.get? md.current_version.toNat).getD emptyVersion
      match readBlocks s.store v.blocks v.start v.end_ 0 with
      | none => []
      | some content => content

/-- `obtener_contenido_version(cow, filename, version)` from `src/main.py`:
reads the metadata JSON directly, validates the version index, and runs the
same block walk; `None` on any failure (including a missing block). -/
def obtener_contenido_version (s : COWFS) (filename : String) (version : Int) :
    Option (List Nat) :=
  match s.meta filename with
  | none => none
  | some md =>
    if version < 0 ∨ (md.versions.length : Int) ≤ version then none
    else
      match md.versions.get? version.toNat with
      | none => none
      | some v => readBlocks s.store v.blocks v.start v.end_ 0

/-- `list_versions(filename)`: `[]` when the metadata file is absent,
otherwise the stored `versions` list. -/
def list_versions (s : COWFS) (filename : String) : List Version :=
  match s.meta filename with
  | none => []
  | some md => md.versions

/-- `create(filename, overwrite)` (lines 145–203).  The control flow branches
on the existence of the base `.txt` file; the only failure paths are OS-level
I/O exceptions, which are not modelled, so the result is always `true`. -/
def create (s : COWFS) (filename : String) (overwrite : Bool) : Bool × COWFS :=
  if s.txt filename then
    if !overwrite then
      -- base file exists, not overwriting: success; recreate the metadata
      -- record only if it is missing
      match s.meta filename with
      | some _ => (true, s)
      | none =>
        (true, { s with
          meta := fun g => if g = filename then some (freshMeta filename) else s.meta g })
    else
      -- overwrite: remove metadata and base file, then fall through to the
      -- fresh-creation path (fresh metadata + empty base file)
      (true, { s with
        meta := fun g => if g = filename then some (freshMeta filename) else s.meta g,
        txt := fun g => if g = filename then true else s.txt g })
  else
    (true, { s with
      meta := fun g => if g = filename then some (freshMeta filename) else s.meta g,
      txt := fun g => if g = filename then true else s.txt g })

/-- `open(filename)` — internal branch (lines 269–290): load the metadata
JSON (failure if absent) and register the session with
`position = metadata["size"]`.  The external-file branch is not modelled. -/
def openFile (s : COWFS) (filename : String) : Bool × COWFS :=
  match s.meta filename with
  | none => (false, s)
  | some md =>
    (true, { s with
      open_files := fun g =>
        if g = filename then some ⟨md, md.size, false⟩ else s.open_files g })

/-- `close(filename)` (lines 292–298). -/
def close (s : COWFS) (filename : String) : Bool × COWFS :=
  match s.open_files filename with
  | none => (false, s)
  | some _ =>
    (true, { s with
      open_files := fun g => if g = filename then none else s.open_files g })

/-- The `while data:` loop of `write` (lines 342–346): repeatedly persist a
chunk of at most `block_size` bytes as a new block and append its id.  Each
iteration consumes at least one byte, so the loop runs at most `data.length`
times; that bound is the explicit fuel of this structural recursion.
Returns `(new ids, store, next_id, residual data)` — the residue is what the
variable `data` holds when the loop exits (always `[]`). -/
def writeChunksGo : Nat → (Nat → Option (List Nat)) → Nat → List Nat →
    List Nat × (Nat → Option (List Nat)) × Nat × List Nat
  | 0, store, nid, data => ([], store, nid, data)
  | fuel + 1, store, nid, data =>
    if data = [] then ([], store, nid, data)
    else
      let ws := min data.length block_size
      let r := writeChunksGo fuel
        (fun i => if i = nid then some (data.take ws) else store i)
        (nid + 1) (data.drop ws)
      (nid :: r.1, r.2)

/-- The chunk-writing loop, with its fuel instantiated to the sufficient
bound `data.length`. -/
def writeChunks (store : Nat → Option (List Nat)) (nid : Nat) (data : List Nat) :
    List Nat × (Nat → Option (List Nat)) × Nat × List Nat :=
  writeChunksGo data.length store nid data

/-- `write(filename, data)` (lines 300–383).  Returns `-1` if the file is not
open.  Otherwise: top up a partial trailing block **in place** (lines
324–339), write the remaining data as fresh blocks, append a new version
`{version: len(versions), blocks, start: 0, end: new_size, size: new_size}`,
persist the metadata, and advance the cursor to `new_size`.  The source ends
with `return len(data)` — but the variable `data` has been consumed by the
chunk loop, so the returned count is the length of the loop's residue.
(The final append of that residue to the base/external file is an append of
an empty byte string and is not modelled.) -/
def write (s : COWFS) (filename : String) (data : List Nat) : Int × COWFS :=
  match s.open_files filename with
  | none => (-1, s)
  | some fi =>
    let md := fi.metadata
    let position := fi.position
    let current_version := currentVersionOf md
    let new_size := max (position + data.length) current_version.size
    let blocks0 := current_version.blocks
    -- "Si hay un bloque parcial, completarlo primero": overwrite the last
    -- block of the current version in place when it is not full.  A missing
    -- last block would raise in the source (`_read_block` opens the file);
    -- it is `getD []`-defaulted here and unreachable through the API.
    let tp :=
      match blocks0.getLast? with
      | none => (s.store, data)
      | some last =>
        let last_data := (s.store last).getD []
        if last_data.length < block_size then
          let remaining := block_size - last_data.length
          ((fun i => if i = last then some (last_data ++ data.take remaining)
                     else s.store i),
           data.drop remaining)
        else (s.store, data)
    let r := writeChunks tp.1 s.next_id tp.2
    let new_blocks := blocks0 ++ r.1
    let v : Version := ⟨md.versions.length, new_blocks, 0, new_size, new_size⟩
    let md2 : Metadata :=
      { md with versions := md.versions ++ [v],
                current_version := (md.versions.length : Int),
                size := new_size, blocks := new_blocks }
    let fi2 : FileInfo := { fi with metadata := md2, position := new_size }
    (((r.2.2.2).length : Int),
     { s with store := r.2.1, next_id := r.2.2.1,
              meta := fun g => if g = filename then some md2 else s.meta g,
              open_files := fun g => if g = filename then some fi2 else s.open_files g })

/-- `undo(filename)` (lines 385–404): failure (`false`, unchanged state) when
the file is not open or `current_version <= 0`; otherwise decrement
`current_version`, reset `metadata["size"]` to the now-current version's
size, and persist.  The session `position` is not touched. -/
def undo (s : COWFS) (filename : String) : Bool × COWFS :=
  match s.open_files filename with
  | none => (false, s)
  | some fi =>
    let md := fi.metadata
    if md.current_version ≤ 0 then (false, s)
    else
      let newIdx := md.current_version - 1
      -- a malformed index would raise `IndexError` in the source
      let v := (md.versions.get? newIdx.toNat).getD emptyVersion
      let md2 := { md with current_version := newIdx, size := v.size }
      let fi2 := { fi with metadata := md2 }
      (true, { s with
        meta := fun g => if g = filename then some md2 else s.meta g,
        open_files := fun g => if g = filename then some fi2 else s.open_files g })

/-- `delete_blocks()` (lines 421–430): `shutil.rmtree` of the whole block
directory and recreation of an empty one — every stored block is removed,
unconditionally. -/
def delete_blocks (s : COWFS) : COWFS :=
  { s with store := fun _ => none }

/-- A fresh storage root: no blocks, no metadata, no open files. -/
def init : COWFS :=
  ⟨fun _ => none, 0, fun _ => none, fun _ => none, fun _ => false⟩

/-- State-manipulation helper for stating cursor-independence: overwrite the
session cursor of an open file, leaving everything else unchanged. -/
def setCursor (s : COWFS) (filename : String) (p : Nat) : COWFS :=
  { s with open_files := fun g =>
      if g = filename then (s.open_files g).map (fun fi => { fi with position := p })
      else s.open_files g }

/- Concrete scenario shared by several claims:
`create("f")`, `open("f")`, `write("f", [7,8])`, then `write("f", [9])`. -/

/-- State after `create(init, "f")`. -/
def s_created : COWFS := (create init "f" false).2

/-- State after `create("f"); open("f")`. -/
def s_opened : COWFS := (openFile s_created "f").2

/-- State after `create("f"); open("f"); write("f", [7,8])`. -/
def s_hi : COWFS := (write s_opened "f" [7, 8]).2

/-- State after additionally `write("f", [9])` (exercises the in-place
top-up of the partial trailing block). -/
def s_hi2 : COWFS := (write s_hi "f" [9]).2

end CowLib

namespace CowLib

/-- Auxiliary: the chunk loop never touches a block id below the starting
fresh id, so blocks written by earlier iterations survive later ones. -/
lemma wc_below (n : Nat) (d : List Nat) (store : Nat → Option (List Nat)) (nid j : Nat)
    (hj : j < nid) : (writeChunksGo n store nid d).2.1 j = store j := by
  induction n generalizing d store nid with
  | zero => rfl
  | succ n ih =>
    by_cases hd : d = []
    · simp [writeChunksGo, hd]
    · simp only [writeChunksGo, if_neg hd]
      have := ih (d.drop (min d.length block_size))
        (fun i => if i = nid then some (d.take (min d.length block_size)) else store i)
        (nid + 1) (Nat.lt_succ_of_lt hj)
      simp only at this ⊢
      rw [this]
      simp [Nat.ne_of_lt hj]

/-- Auxiliary: when the fuel is at least `data.length`, the chunk loop runs
to completion and exits with an empty residue — the value the source's
`return len(data)` measures. -/
lemma wc_rem (n : Nat) (d : List Nat) (store : Nat → Option (List Nat)) (nid : Nat)
    (h : d.length ≤ n) : (writeChunksGo n store nid d).2.2.2 = [] := by
  induction n generalizing d store nid with
  | zero =>
    have : d = [] := List.length_eq_zero.mp (Nat.le_zero.mp h)
    simp [writeChunksGo, this]
  | succ n ih =>
    by_cases hd : d = []
    · simp [writeChunksGo, hd]
    · simp only [writeChunksGo, if_neg hd]
      apply ih
      have hws : 1 ≤ min d.length block_size := by
        have h1 : 1 ≤ d.length := List.length_pos.mpr hd
        have h2 : 1 ≤ block_size := by norm_num [block_size]
        omega
      simp only [List.length_drop]
      omega

/-- Auxiliary: slicing a whole block against a window `[0, end)` that covers
it (`end = pos + len(block) + rest`) returns the block unchanged. -/
lemma sliceBlock_full (chunk : List Nat) (pos rest : Nat) :
    sliceBlock chunk 0 (pos + chunk.length + rest) pos = chunk := by
  unfold sliceBlock
  have hbe : min ((chunk.length : Int)) (((pos + chunk.length + rest : Nat) : Int) - (pos : Int))
      = (chunk.length : Int) := by
    rw [min_eq_left]
    push_cast
    omega
  simp only [hbe]
  have hnn : ¬ ((chunk.length : Int) < 0) := by omega
  simp [hnn, Nat.zero_sub, List.take_length]

/-- Auxiliary round-trip core: reading back the blocks the chunk loop just
wrote, through the window `[0, pos + len(data))` starting at offset `pos`,
reproduces the data exactly. -/
lemma wc_read (n : Nat) (d : List Nat) (store : Nat → Option (List Nat)) (nid pos : Nat)
    (h : d.length ≤ n) :
    readBlocks (writeChunksGo n store nid d).2.1 (writeChunksGo n store nid d).1
      0 (pos + d.length) pos = some d := by
  induction n generalizing d store nid pos with
  | zero =>
    have : d = [] := List.length_eq_zero.mp (Nat.le_zero.mp h)
    simp [writeChunksGo, this, readBlocks]
  | succ n ih =>
    by_cases hd : d = []
    · simp [writeChunksGo, hd, readBlocks]
    · simp only [writeChunksGo, if_neg hd]
      have hws1 : 1 ≤ min d.length block_size := by
        have h1 : 1 ≤ d.length := List.length_pos.mpr hd
        have h2 : 1 ≤ block_size := by norm_num [block_size]
        omega
      have hwsle : min d.length block_size ≤ d.length := Nat.min_le_left _ _
      set ws := min d.length block_size with hws
      have hstore : (writeChunksGo n
          (fun i => if i = nid then some (d.take ws) else store i) (nid + 1) (d.drop ws)).2.1 nid
          = some (d.take ws) := by
        rw [wc_below n _ _ _ _ (Nat.lt_succ_self nid)]
        simp
      simp only [readBlocks, hstore]
      have hlen : (d.take ws).length = ws := by
        simp [List.length_take]
        omega
      have hE2 : pos + d.length = (pos + ws) + (d.drop ws).length := by
        simp [List.length_drop]; omega
      have htail := ih (d.drop ws)
        (fun i => if i = nid then some (d.take ws) else store i) (nid + 1) (pos + ws)
        (by simp [List.length_drop]; omega)
      rw [hlen, hE2, htail]
      rw [show sliceBlock (d.take ws) 0 (pos + ws + (d.drop ws).length) pos
            = d.take ws from by
        have hsf := sliceBlock_full (d.take ws) pos ((d.drop ws).length)
        rw [hlen] at hsf
        exact hsf]
      simp

/-- Auxiliary: one unfolding step of the chunk loop on nonempty data. -/
lemma wc_step (n : Nat) (store : Nat → Option (List Nat)) (nid : Nat) (d : List Nat)
    (hd : d ≠ []) :
    writeChunksGo (n + 1) store nid d =
      ((nid :: (writeChunksGo n
          (fun i => if i = nid then some (d.take (min d.length block_size)) else store i)
          (nid + 1) (d.drop (min d.length block_size))).1),
       (writeChunksGo n
          (fun i => if i = nid then some (d.take (min d.length block_size)) else store i)
          (nid + 1) (d.drop (min d.length block_size))).2) := by
  simp [writeChunksGo, hd]

/-- Auxiliary: the chunk loop does nothing on empty data. -/
lemma wc_nil (n : Nat) (store : Nat → Option (List Nat)) (nid : Nat) :
    writeChunksGo n store nid [] = ([], store, nid, []) := by
  cases n <;> simp [writeChunksGo]

/-- C3: for every byte sequence `d`, the sequence `create("f")`, `open("f")`,
`write("f", d)`, `read("f")` (reading from the start of the content) returns
exactly `d`. -/
theorem write_read_roundtrip (d : List Nat) :
    read (write s_opened "f" d).2 "f" = d := by
  have hopen : s_opened.open_files "f" = some ⟨freshMeta "f", 0, false⟩ := rfl
  simp only [write, hopen, currentVersionOf, freshMeta, emptyVersion]
  norm_num
  simp only [read, writeChunks]
  norm_num
  have := wc_read d.length d s_opened.store s_opened.next_id 0 (le_refl _)
  rw [Nat.zero_add] at this
  simp [this]

/-- C2: for every open session and any data, `write` returns 0 — the source
ends with `return len(data)` after the chunk loop has consumed the variable
`data` down to the empty string, so the returned count is never the number
of bytes written (contradicting the function's own docstring and the spec's
`len(data)` contract). -/
theorem write_returns_zero (s : COWFS) (f : String) (fi : FileInfo) (d : List Nat)
    (h : s.open_files f = some fi) : (write s f d).1 = 0 := by
  have hz : ∀ (st : Nat → Option (List Nat)) (nid : Nat) (dd : List Nat),
      (((writeChunksGo dd.length st nid dd).2.2.2.length : Nat) : Int) = 0 := by
    intro st nid dd
    rw [wc_rem dd.length dd st nid (le_refl _)]
    rfl
  simp only [write, h, writeChunks]
  exact hz _ _ _

/-- C2 witness: the spec's own concrete scenario — `write("f", b"hello")` on
a freshly created and opened file returns 0, not 5. -/
theorem write_returns_zero_witness :
    (write s_opened "f" [104, 101, 108, 108, 111]).1 = 0 :=
  write_returns_zero s_opened "f" ⟨freshMeta "f", 0, false⟩
    [104, 101, 108, 108, 111] (by decide)

/-- C4: evaluation of the code at the failing input.  After
`create("f"); open("f"); write("f", [7,8])` the single stored block (id 0)
holds `[7,8]`; the next `write("f", [9])` rewrites that same block in place
to `[7,8,9]` and allocates no fresh block (`next_id` unchanged), while both
versions of the file reference block 0 — refuting strict block
immutability. -/
theorem block_mutated_in_place :
    s_hi.store 0 = some [7, 8] ∧
    s_hi2.store 0 = some [7, 8, 9] ∧
    s_hi2.next_id = s_hi.next_id ∧
    (s_hi2.meta "f").map (fun m => m.versions.map Version.blocks) = some [[0], [0]] := by
  decide

/-- C5 counterexample: after `create("f"); open("f"); write("f", [7,8])` the
session cursor equals the current version's size (2), yet `read` returns the
full content `[7,8]`, not the empty string the claim requires for
`cursor >= size`. -/
theorem read_full_at_cursor_end :
    (s_hi.open_files "f").map FileInfo.position = some 2 ∧
    (s_hi.open_files "f").map (fun fi => fi.metadata.size) = some 2 ∧
    read s_hi "f" = [7, 8] ∧
    read s_hi "f" ≠ [] := by
  decide

/-- C5 (amended): `read` ignores the session cursor entirely — overwriting
the cursor with any value does not change the result (and `read` mutates no
state, so consecutive reads return identical bytes). -/
theorem read_ignores_cursor (s : COWFS) (f : String) (p : Nat) :
    read (setCursor s f p) f = read s f := by
  simp only [read, setCursor]
  cases h : s.open_files f <;> simp [h]

/-- C6 counterexample: after two writes (`[7,8]` then `[9]`) the cursor is 3;
`undo` succeeds and resets the chain size to the previous version's size 2,
but the session cursor stays at 3 instead of being reset to 2 as claimed. -/
theorem undo_cursor_not_reset :
    (undo s_hi2 "f").1 = true ∧
    ((undo s_hi2 "f").2.meta "f").map Metadata.size = some 2 ∧
    ((undo s_hi2 "f").2.open_files "f").map FileInfo.position = some 3 ∧
    (some 3 : Option Nat) ≠ some 2 := by
  decide

/-- C6 (amended): for every open session whose `current_version` is at least
1, a successful `undo` decrements `current_version`, resets the chain's size
to the size recorded in the version that becomes current, and persists the
chain — while the session's cursor position is left unchanged. -/
theorem undo_decrements (s : COWFS) (f : String) (fi : FileInfo) (v : Version)
    (h : s.open_files f = some fi)
    (h1 : 1 ≤ fi.metadata.current_version)
    (h2 : fi.metadata.versions.get? (fi.metadata.current_version - 1).toNat = some v) :
    (undo s f).1 = true ∧
    ((undo s f).2.meta f).map Metadata.current_version
      = some (fi.metadata.current_version - 1) ∧
    ((undo s f).2.meta f).map Metadata.size = some v.size ∧
    ((undo s f).2.open_files f).map (fun x => x.metadata.current_version)
      = some (fi.metadata.current_version - 1) ∧
    ((undo s f).2.open_files f).map FileInfo.position = some fi.position := by
  have h0 : ¬ (fi.metadata.current_version ≤ 0) := by omega
  have h2' : fi.metadata.versions.get? (fi.metadata.current_version.toNat - 1) = some v := by
    rwa [show (fi.metadata.current_version - 1).toNat
          = fi.metadata.current_version.toNat - 1 from by omega] at h2
  rw [List.get?_eq_getElem?] at h2'
  simp [undo, h, h0, h2']

/-- C6 witness: the amended undo behaviour at the concrete two-version
state. -/
theorem undo_decrements_witness :
    (undo s_hi2 "f").1 = true ∧
    ((undo s_hi2 "f").2.meta "f").map Metadata.current_version = some 0 ∧
    ((undo s_hi2 "f").2.meta "f").map Metadata.size = some 2 ∧
    ((undo s_hi2 "f").2.open_files "f").map (fun x => x.metadata.current_version) = some 0 ∧
    ((undo s_hi2 "f").2.open_files "f").map FileInfo.position = some 3 :=
  undo_decrements s_hi2 "f"
    ⟨⟨"f", [⟨0, [0], 0, 2, 2⟩, ⟨1, [0], 0, 3, 3⟩], 1, 3, [0]⟩, 3, false⟩
    ⟨0, [0], 0, 2, 2⟩ (by decide) (by decide) (by decide)

/-- C7: `undo` on an open session whose `current_version` is 0 or less fails
(returns `false`) and returns the state entirely unchanged. -/
theorem undo_no_history (s : COWFS) (f : String) (fi : FileInfo)
    (h : s.open_files f = some fi) (h0 : fi.metadata.current_version ≤ 0) :
    undo s f = (false, s) := by
  simp [undo, h, h0]

/-- C7 witness: `undo` on a freshly created, never-written file
(`current_version = -1`) fails and changes nothing. -/
theorem undo_no_history_witness : undo s_opened "f" = (false, s_opened) :=
  undo_no_history s_opened "f" ⟨freshMeta "f", 0, false⟩ (by decide) (by decide)

/-- C8: every successful `write` appends exactly one new version record whose
`version` number is the length of the version list before the append, sets
`current_version` to that new last index, keeps all earlier version entries
intact (the new list is the old list plus the one new record), and gives the
new version a size at least the previous current version's size. -/
theorem write_appends_one_version (s : COWFS) (f : String) (fi : FileInfo) (d : List Nat)
    (h : s.open_files f = some fi) :
    ∃ v : Version,
      ((write s f d).2.meta f).map Metadata.versions = some (fi.metadata.versions ++ [v]) ∧
      v.version = fi.metadata.versions.length ∧
      ((write s f d).2.meta f).map Metadata.current_version
        = some ((fi.metadata.versions.length : Int)) ∧
      (currentVersionOf fi.metadata).size ≤ v.size := by
  simp only [write, h]
  exact ⟨_, rfl, rfl, rfl, le_sup_right⟩

/-- C8 witness: the version-append contract at the concrete fresh state. -/
theorem write_appends_one_version_witness :
    ∃ v : Version,
      ((write s_opened "f" [7]).2.meta "f").map Metadata.versions
        = some ((freshMeta "f").versions ++ [v]) ∧
      v.version = (freshMeta "f").versions.length ∧
      ((write s_opened "f" [7]).2.meta "f").map Metadata.current_version
        = some (((freshMeta "f").versions.length : Int)) ∧
      (currentVersionOf (freshMeta "f")).size ≤ v.size :=
  write_appends_one_version s_opened "f" ⟨freshMeta "f", 0, false⟩ [7] (by decide)

/-- C9: writing `BLOCK_SIZE * 2 + 1 = 8193` bytes to a freshly created,
empty, opened file produces exactly the three blocks 0, 1, 2 (and no other),
of which the first two are exactly `BLOCK_SIZE = 4096` bytes long and the
third 1 byte long. -/
theorem write_chunking (d : List Nat) (h : d.length = 8193) :
    ((write s_opened "f" d).2.meta "f").map Metadata.blocks = some [0, 1, 2] ∧
    ((write s_opened "f" d).2.store 0).map List.length = some 4096 ∧
    ((write s_opened "f" d).2.store 1).map List.length = some 4096 ∧
    ((write s_opened "f" d).2.store 2).map List.length = some 1 ∧
    (∀ b : Nat, 3 ≤ b → (write s_opened "f" d).2.store b = none) ∧
    (write s_opened "f" d).2.next_id = 3 := by
  have hopen : s_opened.open_files "f" = some ⟨freshMeta "f", 0, false⟩ := rfl
  have hd1 : d ≠ [] := by intro e; rw [e] at h; simp at h
  have hL2 : (d.drop 4096).length = 4097 := by simp [h]
  have hd2 : d.drop 4096 ≠ [] := by intro e; rw [e] at hL2; simp at hL2
  have hL3 : ((d.drop 4096).drop 4096).length = 1 := by simp [h]
  have hd3 : (d.drop 4096).drop 4096 ≠ [] := by intro e; rw [e] at hL3; simp at hL3
  have hL4 : (((d.drop 4096).drop 4096).drop 1) = [] := by
    apply List.length_eq_zero.mp
    simp [h]
  have hm1 : min d.length block_size = 4096 := by rw [h]; norm_num [block_size]
  have hm2 : min (d.drop 4096).length block_size = 4096 := by
    rw [hL2]; norm_num [block_size]
  have hm3 : min ((d.drop 4096).drop 4096).length block_size = 1 := by
    rw [hL3]; norm_num [block_size]
  have hr : writeChunksGo 8193 s_opened.store s_opened.next_id d
      = ([0, 1, 2],
         (fun i => if i = 2 then some (((d.drop 4096).drop 4096).take 1)
                   else if i = 1 then some ((d.drop 4096).take 4096)
                   else if i = 0 then some (d.take 4096) else none),
         3, []) := by
    rw [show (8193 : Nat) = 8192 + 1 from rfl, wc_step _ _ _ _ hd1]
    simp only [hm1]
    rw [show (8192 : Nat) = 8191 + 1 from rfl, wc_step _ _ _ _ hd2]
    simp only [hm2]
    rw [show (8191 : Nat) = 8190 + 1 from rfl, wc_step _ _ _ _ hd3]
    simp only [hm3]
    rw [hL4, wc_nil]
    rfl
  refine ⟨?gA, ?gB, ?gC, ?gD, ?gE, ?gF⟩
  case gA =>
    simp only [write, hopen, writeChunks]
    norm_num [currentVersionOf, freshMeta, emptyVersion]
    rw [h, hr]
  case gB =>
    simp only [write, hopen, writeChunks]
    norm_num [currentVersionOf, freshMeta, emptyVersion]
    rw [h, hr]
    simp [h]
  case gC =>
    simp only [write, hopen, writeChunks]
    norm_num [currentVersionOf, freshMeta, emptyVersion]
    rw [h, hr]
    simp [h, hL2]
  case gD =>
    simp only [write, hopen, writeChunks]
    norm_num [currentVersionOf, freshMeta, emptyVersion]
    rw [h, hr]
    simp [h, hL3]
  case gE =>
    simp only [write, hopen, writeChunks]
    norm_num [currentVersionOf, freshMeta, emptyVersion]
    rw [h, hr]
    intro b hb
    have hb2 : ¬ (b = 2) := by omega
    have hb1 : ¬ (b = 1) := by omega
    have hb0 : ¬ (b = 0) := by omega
    simp [hb0, hb1, hb2]
  case gF =>
    simp only [write, hopen, writeChunks]
    norm_num [currentVersionOf, freshMeta, emptyVersion]
    rw [h, hr]

/-- C9 witness: the chunking contract at a concrete 8193-byte input. -/
theorem write_chunking_witness :
    ((write s_opened "f" (List.replicate 8193 0)).2.meta "f").map Metadata.blocks
      = some [0, 1, 2] ∧
    ((write s_opened "f" (List.replicate 8193 0)).2.store 0).map List.length = some 4096 ∧
    ((write s_opened "f" (List.replicate 8193 0)).2.store 1).map List.length = some 4096 ∧
    ((write s_opened "f" (List.replicate 8193 0)).2.store 2).map List.length = some 1 ∧
    (∀ b : Nat, 3 ≤ b →
      (write s_opened "f" (List.replicate 8193 0)).2.store b = none) ∧
    (write s_opened "f" (List.replicate 8193 0)).2.next_id = 3 :=
  write_chunking (List.replicate 8193 0) (by rw [List.length_replicate])

/-- C10: `list_versions` returns the empty list when a file has no persisted
metadata record (it does not fail), and exactly the stored versions sequence
when a record exists. -/
theorem list_versions_total (s : COWFS) (f : String) :
    (s.meta f = none → list_versions s f = []) ∧
    (∀ md : Metadata, s.meta f = some md → list_versions s f = md.versions) := by
  constructor
  · intro h; simp [list_versions, h]
  · intro md h; simp [list_versions, h]

/-- C10 witness: on a fresh system, a file without a metadata record lists no
versions. -/
theorem list_versions_total_witness : list_versions init "g" = [] :=
  (list_versions_total init "g").1 rfl

/-- C1 counterexample: block 0 is referenced by version 0 of file "f" and its
content reconstructs to `[7,8]`; the code's block-reclamation operation
`delete_blocks` nevertheless removes it, after which the version can no
longer be reconstructed — refuting the claim that garbage collection never
removes a block referenced by a retained version. -/
theorem delete_blocks_removes_reachable :
    (s_hi.meta "f").map (fun m => m.versions.map Version.blocks) = some [[0]] ∧
    s_hi.store 0 = some [7, 8] ∧
    (delete_blocks s_hi).store 0 = none ∧
    obtener_contenido_version s_hi "f" 0 = some [7, 8] ∧
    obtener_contenido_version (delete_blocks s_hi) "f" 0 = none := by
  decide

/-- C1 (amended): the code's only block-reclamation operation,
`delete_blocks`, removes every stored block unconditionally — in particular
every block referenced by a retained version — and afterwards no version
with a nonempty block list can be reconstructed. -/
theorem delete_blocks_unsound (s : COWFS) (f : String) (md : Metadata) (i : Nat) (v : Version)
    (hm : s.meta f = some md) (hv : md.versions.get? i = some v) (hb : v.blocks ≠ []) :
    (∀ b : Nat, (delete_blocks s).store b = none) ∧
    obtener_contenido_version (delete_blocks s) f (i : Int) = none := by
  refine ⟨fun b => rfl, ?_⟩
  have hi : i < md.versions.length := by
    by_contra hc
    rw [List.get?_eq_none.mpr (by omega)] at hv
    exact Option.noConfusion hv
  have hcond : ¬ (((i : Nat) : Int) < 0 ∨ (md.versions.length : Int) ≤ ((i : Nat) : Int)) := by
    omega
  simp only [obtener_contenido_version, delete_blocks, hm]
  rw [if_neg hcond]
  rw [Int.toNat_natCast]
  simp only [hv]
  obtain ⟨b, rest, hbr⟩ := List.exists_cons_of_ne_nil hb
  rw [hbr]
  simp [readBlocks]

/-- C1 witness: the amended deletion behaviour at the concrete one-version
state. -/
theorem delete_blocks_unsound_witness :
    (∀ b : Nat, (delete_blocks s_hi).store b = none) ∧
    obtener_contenido_version (delete_blocks s_hi) "f" (((0 : Nat)) : Int) = none :=
  delete_blocks_unsound s_hi "f" ⟨"f", [⟨0, [0], 0, 2, 2⟩], 0, 2, [0]⟩ 0
    ⟨0, [0], 0, 2, 2⟩ (by decide) (by decide) (by decide)

end CowLib
